import Mathlib

/-!
Verification of the dynamic-range-processing core of `CompressorInstance.cpp`
(Audacity's compressor/limiter effect instance).

Shallow embedding conventions:
* float/double sample values and dB levels are modelled as exact rationals;
* an audio buffer (`float* const*`) is a list of channels, each a list of samples;
* the fallible extraction of typed settings from the opaque `EffectSettings`
  snapshot returns an `Option` (`none` models the fatal dereference of a failed
  cast, a programming-contract violation in the C++);
* the DSP internals of `CompressorProcessor` (its sources are not in `src/`,
  the spec treats them as a black box) are carried as function-valued fields of
  the processor state, so every orchestration-level operation stays executable.
-/

/-- One audio block: a list of channels, each a list of samples. -/
abbrev Block := List (List ℚ)

/-- Modelled from the spec: `DynamicRangeProcessorSettings` (its header is not
in `src/`). The fields the shown code reads: the input/output compression
thresholds (dB) used for the telemetry net-gain computation, and the lookahead
duration in milliseconds used by `GetLatency`. -/
structure DynamicRangeProcessorSettings where
  inCompressionThreshDb : ℚ
  outCompressionThreshDb : ℚ
  lookaheadMs : ℚ
deriving DecidableEq

/-- Modelled from the spec: `CompressorSettings`, one of the two recognized
variants an `EffectSettings` snapshot can hold; convertible to the common
`DynamicRangeProcessorSettings`. -/
structure CompressorSettings where
  toDynamicRangeProcessorSettings : DynamicRangeProcessorSettings
deriving DecidableEq

/-- Modelled from the spec: `LimiterSettings`, the second recognized variant. -/
structure LimiterSettings where
  toDynamicRangeProcessorSettings : DynamicRangeProcessorSettings
deriving DecidableEq

/-- Modelled from the spec: the opaque `EffectSettings` snapshot. `cast<T>()`
succeeds exactly on the matching variant; `other` stands for a snapshot holding
neither recognized variant. -/
inductive EffectSettings where
  | compressor (s : CompressorSettings)
  | limiter (s : LimiterSettings)
  | other
deriving DecidableEq

/-- `settings.cast<CompressorSettings>()`. -/
def EffectSettings.castCompressorSettings : EffectSettings → Option CompressorSettings
  | .compressor s => some s
  | _ => none

/-- `settings.cast<LimiterSettings>()`. -/
def EffectSettings.castLimiterSettings : EffectSettings → Option LimiterSettings
  | .limiter s => some s
  | _ => none

/-- Embeds `GetDynamicRangeProcessorSettings` (CompressorInstance.cpp lines
51-57): try the compressor cast, otherwise dereference the limiter cast. The
C++ dereferences the second cast's result unconditionally, so a snapshot
holding neither variant is a fatal contract violation, modelled as `none`. -/
def GetDynamicRangeProcessorSettings (settings : EffectSettings) :
    Option DynamicRangeProcessorSettings :=
  match settings.castCompressorSettings with
  | some pSettings => some pSettings.toDynamicRangeProcessorSettings
  | none => settings.castLimiterSettings.map LimiterSettings.toDynamicRangeProcessorSettings

/-- The silence floor `1e-6` below which input samples are excluded from the
ratio computation of `GetMaxDbIncrease`. -/
def silenceFloor : ℚ := 1 / 1000000

/-- Modelled from the spec: the constant `log2ToDb` of `MathApprox.h` (not in
`src/`), the positive factor converting a base-2 logarithm to decibels. -/
def log2ToDb : ℚ := 60205999132796239 / 10000000000000000

/-- Modelled from the spec: `FastLog2` of `MathApprox.h` (not in `src/`) is an
approximation of the base-2 logarithm; modelled by the integer floor logarithm
`Int.log 2`, which agrees with `log2` at powers of two and preserves its
monotonicity and its sign. -/
def fastLog2 (x : ℚ) : ℚ := (Int.log 2 x : ℚ)

/-- The value of a dB-increase computation: a finite dB value or the negative
infinity sentinel (`-std::numeric_limits<float>::infinity()`). -/
inductive DbResult where
  | negInf
  | db (v : ℚ)
deriving DecidableEq

/-- Order on `DbResult` with negative infinity below every finite value. -/
def DbResult.le : DbResult → DbResult → Prop
  | .negInf, _ => True
  | .db _, .negInf => False
  | .db v, .db w => v ≤ w

/-- The accumulation loop of `GetMaxDbIncrease` (lines 61-68) over the zipped
input/output samples: skip samples whose input magnitude is below the silence
floor, otherwise accumulate the largest output/input magnitude ratio. The C++
accumulator variable is called `leastRatio`. -/
def maxRatioLoop : List (ℚ × ℚ) → ℚ → ℚ
  | [], leastRatio => leastRatio
  | p :: rest, leastRatio =>
    if |p.1| < silenceFloor then maxRatioLoop rest leastRatio
    else maxRatioLoop rest (max (|p.2| / |p.1|) leastRatio)

/-- Embeds `GetMaxDbIncrease` (lines 59-71). The C++ iterates `i < blockLen`
over two pointers; the zipped lists carry the same pairs when the two lists
both have length `blockLen`. -/
def GetMaxDbIncrease (inp outp : List ℚ) : DbResult :=
  if maxRatioLoop (inp.zip outp) 0 = 0 then DbResult.negInf
  else DbResult.db (log2ToDb * fastLog2 (maxRatioLoop (inp.zip outp) 0))

/-- Statistics of the most recently processed block: peak input level (dB) and
the attenuation (dB) actually applied to that peak. -/
structure FrameStats where
  maxInputSampleDb : ℚ
  dbAttenuationOfMaxInputSample : ℚ
deriving DecidableEq

/-- The internal DSP state of the black-box core (envelope followers, lookahead
delay line, ...), kept abstract: only the fields' own functions of the
processor ever look inside it. -/
abbrev DspState := List ℚ

/-- Modelled from the spec: `CompressorProcessor` (its sources are not in
`src/`; the spec calls its DSP mathematics a black-box capability). The
black-box parts — the gain curve queried by `EvaluateTransferFunction`, the
block-processing function and the buffer (re)initialization — are carried as
function-valued fields; the observable state the shown code reads is explicit:
the currently applied settings and the last frame's statistics. -/
structure CompressorProcessor where
  appliedSettings : DynamicRangeProcessorSettings
  transferFunction : DynamicRangeProcessorSettings → ℚ → ℚ
  processModel : DynamicRangeProcessorSettings → DspState → Block → ℕ → DspState × Block × FrameStats
  initModel : ℚ → ℕ → ℕ → DspState
  dspState : DspState
  lastFrameStats : FrameStats

/-- `CompressorProcessor::GetSettings`: the currently applied settings. -/
def CompressorProcessor.GetSettings (c : CompressorProcessor) :
    DynamicRangeProcessorSettings :=
  c.appliedSettings

/-- `CompressorProcessor::EvaluateTransferFunction`: pure query into the gain
curve for a given input level, under the currently applied settings. -/
def CompressorProcessor.EvaluateTransferFunction (c : CompressorProcessor)
    (inputDb : ℚ) : ℚ :=
  c.transferFunction c.appliedSettings inputDb

/-- `CompressorProcessor::GetLastFrameStats`. -/
def CompressorProcessor.GetLastFrameStats (c : CompressorProcessor) : FrameStats :=
  c.lastFrameStats

/-- `CompressorProcessor::ApplySettingsIfNeeded`: compare against the applied
settings; no-op when unchanged, otherwise adopt the new settings (the derived
black-box parameters are functions of the settings and need no extra state). -/
def CompressorProcessor.ApplySettingsIfNeeded (c : CompressorProcessor)
    (s : DynamicRangeProcessorSettings) : CompressorProcessor :=
  if s = c.appliedSettings then c else { c with appliedSettings := s }

/-- `CompressorProcessor::Init`: (re)size the internal buffers for the given
sample rate, channel count and block size. -/
def CompressorProcessor.Init (c : CompressorProcessor) (sampleRate : ℚ)
    (numChannels blockSize : ℕ) : CompressorProcessor :=
  { c with dspState := c.initModel sampleRate numChannels blockSize }

/-- `CompressorProcessor::Process`: run one block through the black-box DSP,
recording the frame statistics of the processed block. -/
def CompressorProcessor.Process (c : CompressorProcessor) (inBlock : Block)
    (blockLen : ℕ) : CompressorProcessor × Block :=
  let r := c.processModel c.appliedSettings c.dspState inBlock blockLen
  ({ c with dspState := r.1, lastFrameStats := r.2.2 }, r.2.1)

/-- One telemetry statistics packet (`DynamicRangeProcessorOutputPacket`). -/
structure DynamicRangeProcessorOutputPacket where
  indexOfFirstSample : ℕ
  targetCompressionDb : ℚ
  actualCompressionDb : ℚ
deriving DecidableEq

/-- The telemetry sink (`DynamicRangeProcessorOutputs`): an append-only packet
sequence. The C++ holds a non-owning pointer to it; the embedding carries the
sink's contents inside the owning context. -/
structure DynamicRangeProcessorOutputs where
  packets : List DynamicRangeProcessorOutputPacket
deriving DecidableEq

/-- One realtime processing context ("slave"): in the C++ each element of
`mSlaves` is itself a `CompressorInstance`, of which the realtime path uses
exactly these three members. -/
structure CompressorSlave where
  mCompressor : CompressorProcessor
  mpOutputs : Option DynamicRangeProcessorOutputs
  mSampleCounter : ℕ

/-- The `CompressorInstance` state: the offline core, the realtime contexts,
the master sample counter, the recorded sample rate and the fixed block size.
(The publish/subscribe notification side channel is outside the embedding.) -/
structure CompressorInstance where
  mCompressor : CompressorProcessor
  mSlaves : List CompressorSlave
  mSampleCounter : ℕ
  mSampleRate : Option ℚ
  blockSize : ℕ

/-- Embeds `InstanceProcess` (lines 171-178): re-apply settings if changed,
process the block, return `blockLen`. -/
def InstanceProcess (settings : EffectSettings) (c : CompressorProcessor)
    (inBlock : Block) (blockLen : ℕ) : Option (ℕ × Block × CompressorProcessor) :=
  match GetDynamicRangeProcessorSettings settings with
  | none => none
  | some s =>
    let pr := (c.ApplySettingsIfNeeded s).Process inBlock blockLen
    some (blockLen, pr.2, pr.1)

/-- Embeds `ProcessBlock` (lines 74-79): delegate to `InstanceProcess` on the
offline core. -/
def CompressorInstance.ProcessBlock (inst : CompressorInstance)
    (settings : EffectSettings) (inBlock : Block) (blockLen : ℕ) :
    Option (ℕ × Block × CompressorInstance) :=
  (InstanceProcess settings inst.mCompressor inBlock blockLen).map fun r =>
    (r.1, r.2.1, { inst with mCompressor := r.2.2 })

/-- Embeds `RealtimeInitialize` (lines 81-90): fix the block size at 512, clear
the contexts, reset the sample counter, record the sample rate. (The settings
publication is a notification to external collaborators, outside the state.) -/
def CompressorInstance.RealtimeInit (inst : CompressorInstance) (sampleRate : ℚ) :
    CompressorInstance :=
  { inst with blockSize := 512, mSlaves := [], mSampleCounter := 0,
              mSampleRate := some sampleRate }

/-- Modelled from the spec: the `CompressorProcessor` constructed by
`mSlaves.emplace_back(mProcessor)` — same black-box algorithm as every other
core of the effect, freshly initialized observable state. -/
def CompressorProcessor.fresh (proto : CompressorProcessor) : CompressorProcessor :=
  { proto with appliedSettings := ⟨0, 0, 0⟩, dspState := [], lastFrameStats := ⟨0, 0⟩ }

/-- Embeds `RealtimeAddProcessor` (lines 102-111): append a fresh context, then
`InstanceInit` it — apply the call's settings to its core and `Init` it with
the instance's block size. A fresh context's sample counter is 0. -/
def CompressorInstance.RealtimeAddProcessor (inst : CompressorInstance)
    (settings : EffectSettings) (pOutputs : Option DynamicRangeProcessorOutputs)
    (numChannels : ℕ) (sampleRate : ℚ) : Option CompressorInstance :=
  match GetDynamicRangeProcessorSettings settings with
  | none => none
  | some s =>
    let c := (inst.mCompressor.fresh.ApplySettingsIfNeeded s).Init sampleRate
      numChannels inst.blockSize
    some { inst with
      mSlaves := inst.mSlaves ++
        [{ mCompressor := c, mpOutputs := pOutputs, mSampleCounter := 0 }] }

/-- The statistics packet built inside `RealtimeProcess` (lines 134-144) from
the post-process core `c` and the context's pre-advance sample counter. -/
def emittedPacket (slave : CompressorSlave) (c : CompressorProcessor) :
    DynamicRangeProcessorOutputPacket :=
  let compressorSettings := c.GetSettings
  let frameStats := c.GetLastFrameStats
  let netGain := compressorSettings.outCompressionThreshDb -
    compressorSettings.inCompressionThreshDb
  { indexOfFirstSample := slave.mSampleCounter
    targetCompressionDb := c.EvaluateTransferFunction frameStats.maxInputSampleDb -
      frameStats.maxInputSampleDb - netGain
    actualCompressionDb := frameStats.dbAttenuationOfMaxInputSample }

/-- The context after an in-range `RealtimeProcess` call: store the processed
core, append one packet when (and only when) a sink is attached, then advance
the sample counter by the processed amount. -/
def CompressorSlave.afterProcess (slave : CompressorSlave)
    (c : CompressorProcessor) (numProcessedSamples : ℕ) : CompressorSlave :=
  { mCompressor := c
    mpOutputs := slave.mpOutputs.map fun outs =>
      { packets := outs.packets ++ [emittedPacket slave c] }
    mSampleCounter := slave.mSampleCounter + numProcessedSamples }

/-- Embeds `RealtimeProcess` (lines 121-148): out-of-range group indices are a
defensive no-op returning 0; otherwise process through the context's core,
emit telemetry if a sink is attached, and advance the context's counter. The
returned block is the written output buffer (`outbuf` is returned unchanged on
the no-op path, where the C++ writes nothing). -/
def CompressorInstance.RealtimeProcess (inst : CompressorInstance) (group : ℕ)
    (settings : EffectSettings) (inbuf outbuf : Block) (numSamples : ℕ) :
    Option (ℕ × Block × CompressorInstance) :=
  if hg : group < inst.mSlaves.length then
    let slave := inst.mSlaves.get ⟨group, hg⟩
    match InstanceProcess settings slave.mCompressor inbuf numSamples with
    | none => none
    | some r =>
      some (r.1, r.2.1,
        { inst with mSlaves := inst.mSlaves.set group (slave.afterProcess r.2.2 r.1) })
  else
    some (0, outbuf, inst)

/-- Embeds `RealtimePassThrough` (lines 150-159): advance the context's sample
counter by `numSamples`; out-of-range group indices are silently ignored. The
settings and input buffer parameters are unused, as in the C++. -/
def CompressorInstance.RealtimePassThrough (inst : CompressorInstance)
    (group : ℕ) (_settings : EffectSettings) (_inbuf : Block) (numSamples : ℕ) :
    CompressorInstance :=
  if hg : group < inst.mSlaves.length then
    let slave := inst.mSlaves.get ⟨group, hg⟩
    let slave1 : CompressorSlave :=
      { slave with mSampleCounter := slave.mSampleCounter + numSamples }
    { inst with mSlaves := inst.mSlaves.set group slave1 }
  else inst

/-- Truncation toward zero: the conversion of the positive-or-negative double
expression to the integer `SampleCount` return type. -/
def cppTruncToInt (q : ℚ) : ℤ := if 0 ≤ q then ⌊q⌋ else ⌈q⌉

/-- Embeds `GetLatency` (lines 180-185): lookahead (ms) × sampleRate / 1000,
converted to an integer sample count. A `const` method: it reads no instance
state, which the unused instance parameter makes explicit. -/
def CompressorInstance.GetLatency (_inst : CompressorInstance)
    (settings : EffectSettings) (sampleRate : ℚ) : Option ℤ :=
  (GetDynamicRangeProcessorSettings settings).map fun s =>
    cppTruncToInt (s.lookaheadMs * sampleRate / 1000)

/-- The sample counter of context `g`, 0 when no such context exists. -/
def CompressorInstance.counterOf (inst : CompressorInstance) (g : ℕ) : ℕ :=
  ((inst.mSlaves[g]?).map CompressorSlave.mSampleCounter).getD 0

/-- One realtime call on the instance, for reasoning about call sequences. -/
inductive RtEvent where
  | process (group : ℕ) (settings : EffectSettings) (inbuf outbuf : Block) (numSamples : ℕ)
  | passThrough (group : ℕ) (settings : EffectSettings) (inbuf : Block) (numSamples : ℕ)

/-- The group index an event addresses. -/
def RtEvent.group : RtEvent → ℕ
  | .process g _ _ _ _ => g
  | .passThrough g _ _ _ => g

/-- The `numSamples` argument of an event. -/
def RtEvent.numSamples : RtEvent → ℕ
  | .process _ _ _ _ n => n
  | .passThrough _ _ _ n => n

/-- Run one realtime call, keeping only the instance state (`none` when a
`process` call hits the fatal invalid-settings contract violation). -/
def CompressorInstance.stepEvent (inst : CompressorInstance) :
    RtEvent → Option CompressorInstance
  | .process g s i o n => (inst.RealtimeProcess g s i o n).map fun r => r.2.2
  | .passThrough g s i n => some (inst.RealtimePassThrough g s i n)

/-- Run a sequence of realtime calls. -/
def CompressorInstance.runEvents : CompressorInstance → List RtEvent → Option CompressorInstance
  | inst, [] => some inst
  | inst, e :: rest =>
    match inst.stepEvent e with
    | none => none
    | some inst1 => inst1.runEvents rest

/-- Sum of the `numSamples` arguments of the events addressed to group `g`. -/
def eventSumOn (g : ℕ) : List RtEvent → ℕ
  | [] => 0
  | e :: rest => (if e.group = g then e.numSamples else 0) + eventSumOn g rest

/-- The arguments of one `RealtimeAddProcessor` call. -/
structure AddArgs where
  settings : EffectSettings
  pOutputs : Option DynamicRangeProcessorOutputs
  numChannels : ℕ
  sampleRate : ℚ

/-- Run a sequence of `RealtimeAddProcessor` calls. -/
def CompressorInstance.addAll : CompressorInstance → List AddArgs → Option CompressorInstance
  | inst, [] => some inst
  | inst, a :: rest =>
    match inst.RealtimeAddProcessor a.settings a.pOutputs a.numChannels a.sampleRate with
    | none => none
    | some inst1 => inst1.addAll rest

/-! Concrete sample states used by the closed witness theorems. -/

/-- A concrete black-box core: identity transfer curve, a process model that
echoes its input block and reports zero statistics, empty buffers. -/
def sampleCore : CompressorProcessor :=
  { appliedSettings := ⟨0, 0, 0⟩
    transferFunction := fun _ x => x
    processModel := fun _ st blk _ => (st, blk, ⟨0, 0⟩)
    initModel := fun _ _ _ => []
    dspState := []
    lastFrameStats := ⟨0, 0⟩ }

/-- A concrete settings value: thresholds 2 dB in, 1 dB out, 1 ms lookahead. -/
def sampleDrp : DynamicRangeProcessorSettings := ⟨2, 1, 1⟩

/-- A limiter snapshot holding `sampleDrp`. -/
def sampleSettings : EffectSettings := EffectSettings.limiter ⟨sampleDrp⟩

/-- An empty telemetry sink. -/
def sampleOuts : DynamicRangeProcessorOutputs := ⟨[]⟩

/-- A context with a sink attached and counter 0. -/
def sampleSlave : CompressorSlave := ⟨sampleCore, some sampleOuts, 0⟩

/-- A context without a sink and counter 5. -/
def sampleSlaveNoSink : CompressorSlave := ⟨sampleCore, none, 5⟩

/-- An instance with two contexts. -/
def sampleInstance : CompressorInstance :=
  { mCompressor := sampleCore
    mSlaves := [sampleSlave, sampleSlaveNoSink]
    mSampleCounter := 0
    mSampleRate := some 48000
    blockSize := 512 }

/-- `sampleCore` with `sampleDrp` applied. -/
def sampleCore1 : CompressorProcessor := { sampleCore with appliedSettings := sampleDrp }

/-- The first context after `RealtimeProcess 0` with 2 samples. -/
def sampleSlaveAfter : CompressorSlave :=
  ⟨sampleCore1, some ⟨[emittedPacket sampleSlave sampleCore1]⟩, 2⟩

/-- `sampleInstance` after `RealtimeProcess 0` with 2 samples. -/
def sampleInstanceAfter : CompressorInstance :=
  { sampleInstance with mSlaves := [sampleSlaveAfter, sampleSlaveNoSink] }

/-- The second context after `RealtimeProcess 1` with 3 samples. -/
def sampleSlaveNoSinkAfter : CompressorSlave := ⟨sampleCore1, none, 8⟩

/-- `sampleInstance` after `RealtimeProcess 1` with 3 samples. -/
def sampleInstanceAfter2 : CompressorInstance :=
  { sampleInstance with mSlaves := [sampleSlave, sampleSlaveNoSinkAfter] }

/-- `sampleInstance` after a `ProcessBlock` call. -/
def sampleInstancePB : CompressorInstance := { sampleInstance with mCompressor := sampleCore1 }

/-- The `ProcessBlock` result on `sampleInstance` with one sample. -/
def sampleInstancePBRes : ℕ × Block × CompressorInstance := (1, [[1]], sampleInstancePB)

/-- The `RealtimeProcess 0` result on `sampleInstance` with 2 samples. -/
def sampleRtRes : ℕ × Block × CompressorInstance := (2, [[1, 2]], sampleInstanceAfter)

/-- The state built by `RealtimeInit` on `sampleInstance` followed by one
`RealtimeAddProcessor`. -/
def sampleRtSlave : CompressorSlave := ⟨sampleCore1, some ⟨[]⟩, 0⟩

/-- See `sampleRtSlave`. -/
def sampleRtInst : CompressorInstance :=
  { mCompressor := sampleCore
    mSlaves := [sampleRtSlave]
    mSampleCounter := 0
    mSampleRate := some 48000
    blockSize := 512 }

/-- The add-processor call sequence for the counter witness. -/
def sampleAdds : List AddArgs := [⟨sampleSettings, some ⟨[]⟩, 2, 48000⟩]

/-- A process call of 512 samples followed by a pass-through of 256 samples,
all on group 0. -/
def sampleEvs : List RtEvent :=
  [RtEvent.process 0 sampleSettings [[0, 0]] [[0, 0]] 512,
   RtEvent.passThrough 0 sampleSettings [[0, 0]] 256]

/-- The first half of `sampleEvs`. -/
def samplePre : List RtEvent := [RtEvent.process 0 sampleSettings [[0, 0]] [[0, 0]] 512]

/-- The second half of `sampleEvs`. -/
def sampleSuf : List RtEvent := [RtEvent.passThrough 0 sampleSettings [[0, 0]] 256]

/-- `sampleRtInst` after `samplePre`. -/
def sampleRtSlaveMid : CompressorSlave :=
  ⟨sampleCore1, some ⟨[emittedPacket sampleRtSlave sampleCore1]⟩, 512⟩

/-- See `sampleRtSlaveMid`. -/
def sampleRtInstMid : CompressorInstance := { sampleRtInst with mSlaves := [sampleRtSlaveMid] }

/-- `sampleRtInst` after `sampleEvs`. -/
def sampleRtSlaveEnd : CompressorSlave :=
  ⟨sampleCore1, some ⟨[emittedPacket sampleRtSlave sampleCore1]⟩, 768⟩

/-- See `sampleRtSlaveEnd`. -/
def sampleRtInstEnd : CompressorInstance := { sampleRtInst with mSlaves := [sampleRtSlaveEnd] }

/-- Compressor settings with 0.1 ms lookahead and zero thresholds. -/
def latencyCexDrpA : DynamicRangeProcessorSettings := ⟨0, 0, 1 / 10⟩

/-- Compressor settings with 0.2 ms lookahead and zero thresholds. -/
def latencyCexDrpB : DynamicRangeProcessorSettings := ⟨0, 0, 1 / 5⟩

/-- A snapshot holding `latencyCexDrpA`. -/
def latencyCexA : EffectSettings := EffectSettings.compressor ⟨latencyCexDrpA⟩

/-- A snapshot holding `latencyCexDrpB`. -/
def latencyCexB : EffectSettings := EffectSettings.compressor ⟨latencyCexDrpB⟩

/-! Helper lemmas. -/

/-- The ratio accumulator never goes below a nonnegative start. -/
theorem maxRatioLoop_nonneg (l : List (ℚ × ℚ)) (acc : ℚ) (h : 0 ≤ acc) :
    0 ≤ maxRatioLoop l acc := by
  induction l generalizing acc with
  | nil => simpa [maxRatioLoop] using h
  | cons p rest ih =>
    rw [maxRatioLoop]
    split
    · exact ih acc h
    · exact ih _ (h.trans (le_max_right _ _))

/-- When no output magnitude exceeds its input magnitude, the accumulated
ratio stays at most 1. -/
theorem maxRatioLoop_le_one (l : List (ℚ × ℚ)) (acc : ℚ) (hacc : acc ≤ 1)
    (hl : ∀ p ∈ l, |p.2| ≤ |p.1|) : maxRatioLoop l acc ≤ 1 := by
  induction l generalizing acc with
  | nil => simpa [maxRatioLoop] using hacc
  | cons p rest ih =>
    rw [maxRatioLoop]
    split
    · exact ih acc hacc fun q hq => hl q (List.mem_cons_of_mem _ hq)
    · rename_i hge
      refine ih _ (max_le ?_ hacc) fun q hq => hl q (List.mem_cons_of_mem _ hq)
      have hpos : (0 : ℚ) < |p.1| :=
        lt_of_lt_of_le (by norm_num [silenceFloor]) (not_lt.mp hge)
      exact (div_le_one hpos).mpr (hl p (List.mem_cons_self _ _))

/-- Pairs whose input magnitude is below the silence floor are all skipped. -/
theorem maxRatioLoop_skip (l : List (ℚ × ℚ)) (acc : ℚ)
    (hl : ∀ p ∈ l, |p.1| < silenceFloor) : maxRatioLoop l acc = acc := by
  induction l with
  | nil => rfl
  | cons p rest ih =>
    rw [maxRatioLoop, if_pos (hl p (List.mem_cons_self _ _))]
    exact ih fun q hq => hl q (List.mem_cons_of_mem _ hq)

/-- The modelled fast base-2 logarithm is nonpositive at arguments at most 1. -/
theorem fastLog2_nonpos (r : ℚ) (hr : r ≤ 1) : fastLog2 r ≤ 0 := by
  have h : Int.log 2 r ≤ 0 := by
    rw [Int.log_of_right_le_one 2 hr]
    exact neg_nonpos.mpr (Int.natCast_nonneg _)
  unfold fastLog2
  exact Int.cast_nonpos.mpr h

/-- A block whose input samples all sit below the silence floor reports the
negative-infinity sentinel, whatever the output samples are. -/
theorem getMaxDbIncrease_subfloor (inp outp : List ℚ)
    (h : ∀ x ∈ inp, |x| < silenceFloor) :
    GetMaxDbIncrease inp outp = DbResult.negInf := by
  unfold GetMaxDbIncrease
  rw [maxRatioLoop_skip]
  · simp
  · intro p hp
    exact h p.1 (List.of_mem_zip hp).1

/-- The ratio loop reads output samples only at positions whose input
magnitude reaches the silence floor. -/
theorem maxRatioLoop_congr (inp : List ℚ) :
    ∀ (out₁ out₂ : List ℚ) (acc : ℚ), inp.length = out₁.length →
      inp.length = out₂.length →
      (∀ p ∈ inp.zip (out₁.zip out₂), silenceFloor ≤ |p.1| → p.2.1 = p.2.2) →
      maxRatioLoop (inp.zip out₁) acc = maxRatioLoop (inp.zip out₂) acc := by
  induction inp with
  | nil => intro out₁ out₂ acc _ _ _; rfl
  | cons x xs ih =>
    intro out₁ out₂ acc h₁ h₂ hagree
    cases out₁ with
    | nil => simp at h₁
    | cons y₁ ys₁ =>
      cases out₂ with
      | nil => simp at h₂
      | cons y₂ ys₂ =>
        have hagree1 : ∀ p ∈ xs.zip (ys₁.zip ys₂), silenceFloor ≤ |p.1| → p.2.1 = p.2.2 :=
          fun p hp => hagree p (by
            simp only [List.zip_cons_cons]
            exact List.mem_cons_of_mem _ hp)
        simp only [List.zip_cons_cons, maxRatioLoop]
        by_cases hx : |x| < silenceFloor
        · rw [if_pos hx, if_pos hx]
          exact ih ys₁ ys₂ acc (by simpa using h₁) (by simpa using h₂) hagree1
        · rw [if_neg hx, if_neg hx]
          have hy : y₁ = y₂ := hagree (x, y₁, y₂)
            (by simp only [List.zip_cons_cons]; exact List.mem_cons_self _ _)
            (not_lt.mp hx)
          rw [hy]
          exact ih ys₁ ys₂ _ (by simpa using h₁) (by simpa using h₂) hagree1

/-- Out-of-range `RealtimeProcess`: zero samples, untouched state, the output
buffer returned unwritten. -/
theorem realtimeProcess_oor (inst : CompressorInstance) (group : ℕ)
    (settings : EffectSettings) (inbuf outbuf : Block) (numSamples : ℕ)
    (hg : ¬ group < inst.mSlaves.length) :
    inst.RealtimeProcess group settings inbuf outbuf numSamples =
      some (0, outbuf, inst) := by
  rw [CompressorInstance.RealtimeProcess, dif_neg hg]

/-- In-range `RealtimeProcess` with an invalid settings snapshot hits the
fatal contract violation. -/
theorem realtimeProcess_badSettings (inst : CompressorInstance) (group : ℕ)
    (settings : EffectSettings) (inbuf outbuf : Block) (numSamples : ℕ)
    (hg : group < inst.mSlaves.length)
    (hset : GetDynamicRangeProcessorSettings settings = none) :
    inst.RealtimeProcess group settings inbuf outbuf numSamples = none := by
  rw [CompressorInstance.RealtimeProcess, dif_pos hg]
  simp only [InstanceProcess, hset]

/-- The one-step equation of an in-range `RealtimeProcess` call. -/
theorem realtimeProcess_inRange (inst : CompressorInstance) (group : ℕ)
    (settings : EffectSettings) (inbuf outbuf : Block) (numSamples : ℕ)
    (hg : group < inst.mSlaves.length) (s : DynamicRangeProcessorSettings)
    (hset : GetDynamicRangeProcessorSettings settings = some s) :
    inst.RealtimeProcess group settings inbuf outbuf numSamples =
      some (numSamples,
        (((inst.mSlaves.get ⟨group, hg⟩).mCompressor.ApplySettingsIfNeeded s).Process
          inbuf numSamples).2,
        { inst with mSlaves := (inst.mSlaves.set group
            ((inst.mSlaves.get ⟨group, hg⟩).afterProcess
              (((inst.mSlaves.get ⟨group, hg⟩).mCompressor.ApplySettingsIfNeeded s).Process
                inbuf numSamples).1
              numSamples)) }) := by
  rw [CompressorInstance.RealtimeProcess, dif_pos hg]
  simp only [InstanceProcess, hset]

/-- The one-step equation of an in-range `RealtimePassThrough` call. -/
theorem realtimePassThrough_inRange (inst : CompressorInstance) (group : ℕ)
    (settings : EffectSettings) (inbuf : Block) (numSamples : ℕ)
    (hg : group < inst.mSlaves.length) :
    inst.RealtimePassThrough group settings inbuf numSamples =
      { inst with mSlaves := (inst.mSlaves.set group
          ({ inst.mSlaves.get ⟨group, hg⟩ with mSampleCounter :=
              (inst.mSlaves.get ⟨group, hg⟩).mSampleCounter + numSamples })) } := by
  rw [CompressorInstance.RealtimePassThrough, dif_pos hg]

/-- Out-of-range `RealtimePassThrough` is silently ignored. -/
theorem realtimePassThrough_oor (inst : CompressorInstance) (group : ℕ)
    (settings : EffectSettings) (inbuf : Block) (numSamples : ℕ)
    (hg : ¬ group < inst.mSlaves.length) :
    inst.RealtimePassThrough group settings inbuf numSamples = inst := by
  rw [CompressorInstance.RealtimePassThrough, dif_neg hg]

/-- The sample counter of an existing context, through `List.get`. -/
theorem counterOf_eq_get (inst : CompressorInstance) (g : ℕ)
    (hg : g < inst.mSlaves.length) :
    inst.counterOf g = (inst.mSlaves.get ⟨g, hg⟩).mSampleCounter := by
  unfold CompressorInstance.counterOf
  rw [List.getElem?_eq_getElem hg]
  rfl

/-- The sample counter of a nonexistent context defaults to 0. -/
theorem counterOf_eq_zero (inst : CompressorInstance) (g : ℕ)
    (hg : inst.mSlaves.length ≤ g) : inst.counterOf g = 0 := by
  unfold CompressorInstance.counterOf
  rw [List.getElem?_eq_none hg]
  rfl

/-- Counters after replacing one context. -/
theorem counterOf_set (inst : CompressorInstance) (j : ℕ) (sl : CompressorSlave)
    (g : ℕ) (hg : g < inst.mSlaves.length) :
    CompressorInstance.counterOf { inst with mSlaves := inst.mSlaves.set j sl } g =
      if j = g then sl.mSampleCounter else inst.counterOf g := by
  unfold CompressorInstance.counterOf
  by_cases h : j = g
  · subst h
    rw [if_pos rfl, List.getElem?_set_eq_of_lt sl hg]
    rfl
  · rw [if_neg h, List.getElem?_set_ne h]

/-- One realtime call preserves the context count and advances exactly the
addressed in-range context's counter by its `numSamples`. -/
theorem stepEvent_counterOf (inst inst1 : CompressorInstance) (e : RtEvent)
    (h : inst.stepEvent e = some inst1) :
    inst1.mSlaves.length = inst.mSlaves.length ∧
    ∀ g, g < inst.mSlaves.length →
      inst1.counterOf g = inst.counterOf g + (if e.group = g then e.numSamples else 0) := by
  cases e with
  | process gr s i o n =>
    by_cases hgr : gr < inst.mSlaves.length
    · cases hset : GetDynamicRangeProcessorSettings s with
      | none =>
        rw [CompressorInstance.stepEvent,
          realtimeProcess_badSettings inst gr s i o n hgr hset] at h
        cases h
      | some d =>
        rw [CompressorInstance.stepEvent,
          realtimeProcess_inRange inst gr s i o n hgr d hset] at h
        obtain rfl : _ = inst1 := Option.some.inj h
        refine ⟨List.length_set .., fun g hg => ?_⟩
        rw [counterOf_set inst gr _ g hg]
        simp only [RtEvent.group, RtEvent.numSamples]
        by_cases hjg : gr = g
        · subst hjg
          rw [if_pos rfl, if_pos rfl, counterOf_eq_get inst gr hgr]
          rfl
        · rw [if_neg hjg, if_neg hjg, Nat.add_zero]
    · rw [CompressorInstance.stepEvent, realtimeProcess_oor inst gr s i o n hgr] at h
      obtain rfl : _ = inst1 := Option.some.inj h
      refine ⟨rfl, fun g hg => ?_⟩
      simp only [RtEvent.group, RtEvent.numSamples]
      have hne : gr ≠ g := fun hc => hgr (hc ▸ hg)
      rw [if_neg hne, Nat.add_zero]
  | passThrough gr s i n =>
    by_cases hgr : gr < inst.mSlaves.length
    · rw [CompressorInstance.stepEvent,
        realtimePassThrough_inRange inst gr s i n hgr] at h
      obtain rfl : _ = inst1 := Option.some.inj h
      refine ⟨List.length_set .., fun g hg => ?_⟩
      rw [counterOf_set inst gr _ g hg]
      simp only [RtEvent.group, RtEvent.numSamples]
      by_cases hjg : gr = g
      · subst hjg
        rw [if_pos rfl, if_pos rfl, counterOf_eq_get inst gr hgr]
      · rw [if_neg hjg, if_neg hjg, Nat.add_zero]
    · rw [CompressorInstance.stepEvent, realtimePassThrough_oor inst gr s i n hgr] at h
      obtain rfl : _ = inst1 := Option.some.inj h
      refine ⟨rfl, fun g hg => ?_⟩
      simp only [RtEvent.group, RtEvent.numSamples]
      have hne : gr ≠ g := fun hc => hgr (hc ▸ hg)
      rw [if_neg hne, Nat.add_zero]

/-- Running a call sequence preserves the context count and adds the per-group
sample total to each in-range context's counter. -/
theorem runEvents_counterOf (evs : List RtEvent) :
    ∀ inst inst' : CompressorInstance, inst.runEvents evs = some inst' →
      inst'.mSlaves.length = inst.mSlaves.length ∧
      ∀ g, g < inst.mSlaves.length →
        inst'.counterOf g = inst.counterOf g + eventSumOn g evs := by
  induction evs with
  | nil =>
    intro inst inst' h
    obtain rfl : inst = inst' := Option.some.inj h
    exact ⟨rfl, fun g _ => by rw [eventSumOn, Nat.add_zero]⟩
  | cons e rest ih =>
    intro inst inst' h
    rw [CompressorInstance.runEvents] at h
    cases hstep : inst.stepEvent e with
    | none => rw [hstep] at h; cases h
    | some inst1 =>
      rw [hstep] at h
      obtain ⟨hlen1, hc1⟩ := stepEvent_counterOf inst inst1 e hstep
      obtain ⟨hlen2, hc2⟩ := ih inst1 inst' h
      refine ⟨hlen2.trans hlen1, fun g hg => ?_⟩
      rw [hc2 g (hlen1 ▸ hg), hc1 g hg, eventSumOn]
      omega

/-- Splitting a call sequence splits the per-group sample total. -/
theorem eventSumOn_append (g : ℕ) (l₁ l₂ : List RtEvent) :
    eventSumOn g (l₁ ++ l₂) = eventSumOn g l₁ + eventSumOn g l₂ := by
  induction l₁ with
  | nil => rw [List.nil_append, eventSumOn, Nat.zero_add]
  | cons e rest ih => rw [List.cons_append, eventSumOn, eventSumOn, ih]; omega

/-- `RealtimeAddProcessor` appends one context with counter 0. -/
theorem addProcessor_counterOf (inst inst1 : CompressorInstance) (a : AddArgs)
    (h : inst.RealtimeAddProcessor a.settings a.pOutputs a.numChannels a.sampleRate =
      some inst1) :
    inst1.mSlaves.length = inst.mSlaves.length + 1 ∧
    ∀ g, inst1.counterOf g = if g < inst.mSlaves.length then inst.counterOf g else 0 := by
  cases hset : GetDynamicRangeProcessorSettings a.settings with
  | none => rw [CompressorInstance.RealtimeAddProcessor, hset] at h; cases h
  | some s =>
    rw [CompressorInstance.RealtimeAddProcessor, hset] at h
    obtain rfl : _ = inst1 := Option.some.inj h
    refine ⟨by simp, fun g => ?_⟩
    unfold CompressorInstance.counterOf
    by_cases hg : g < inst.mSlaves.length
    · rw [if_pos hg]
      simp only [List.getElem?_append_left hg]
    · rw [if_neg hg]
      by_cases hg2 : g < inst.mSlaves.length + 1
      · have hge : g = inst.mSlaves.length := by omega
        subst hge
        rw [List.getElem?_append_right (Nat.le_refl _), Nat.sub_self]
        rfl
      · rw [List.getElem?_eq_none (by simp; omega)]
        rfl

/-- Running add-processor calls keeps old counters and zeroes the new ones. -/
theorem addAll_counterOf (adds : List AddArgs) :
    ∀ inst inst' : CompressorInstance, inst.addAll adds = some inst' →
      ∀ g, inst'.counterOf g = if g < inst.mSlaves.length then inst.counterOf g else 0 := by
  induction adds with
  | nil =>
    intro inst inst' h g
    obtain rfl : inst = inst' := Option.some.inj h
    by_cases hg : g < inst.mSlaves.length
    · rw [if_pos hg]
    · rw [if_neg hg, counterOf_eq_zero inst g (by omega)]
  | cons a rest ih =>
    intro inst inst' h g
    rw [CompressorInstance.addAll] at h
    cases hstep : inst.RealtimeAddProcessor a.settings a.pOutputs a.numChannels
        a.sampleRate with
    | none => rw [hstep] at h; cases h
    | some inst1 =>
      rw [hstep] at h
      obtain ⟨hlen1, hc1⟩ := addProcessor_counterOf inst inst1 a hstep
      have h2 := ih inst1 inst' h g
      rw [h2, hc1 g]
      split_ifs <;> omega

/-- The settings adopted by `ApplySettingsIfNeeded` are the requested ones. -/
theorem applySettingsIfNeeded_appliedSettings (c : CompressorProcessor)
    (s : DynamicRangeProcessorSettings) :
    (c.ApplySettingsIfNeeded s).appliedSettings = s := by
  unfold CompressorProcessor.ApplySettingsIfNeeded
  split
  · rename_i h
    exact h.symm
  · rfl

/-- `Process` does not change the applied settings. -/
theorem process_appliedSettings (c : CompressorProcessor) (inBlock : Block)
    (blockLen : ℕ) : ((c.Process inBlock blockLen).1).appliedSettings =
      c.appliedSettings := rfl

/-- C3: `RealtimeProcess` with a group index at or beyond the current context
count returns 0 processed samples, leaves the output buffer unwritten and
returns the instance state completely unchanged — no context's sample counter
moves, no packet is appended to any sink, and no core's settings or DSP state
is touched (the returned instance is the argument itself). -/
theorem realtimeProcess_outOfRange_noop (inst : CompressorInstance) (group : ℕ)
    (settings : EffectSettings) (inbuf outbuf : Block) (numSamples : ℕ)
    (hg : inst.mSlaves.length ≤ group) :
    inst.RealtimeProcess group settings inbuf outbuf numSamples =
      some (0, outbuf, inst) :=
  realtimeProcess_oor inst group settings inbuf outbuf numSamples (by omega)

/-- Witness for C3: a concrete out-of-range call on a two-context instance. -/
theorem realtimeProcess_outOfRange_noop_witness :
    sampleInstance.RealtimeProcess 5 sampleSettings [[1]] [[9]] 7 =
      some (0, [[9]], sampleInstance) :=
  realtimeProcess_outOfRange_noop sampleInstance 5 sampleSettings [[1]] [[9]] 7
    (by decide)

/-- Truncation toward zero is monotone. -/
theorem cppTruncToInt_mono (a b : ℚ) (h : a ≤ b) :
    cppTruncToInt a ≤ cppTruncToInt b := by
  unfold cppTruncToInt
  by_cases ha : 0 ≤ a
  · rw [if_pos ha, if_pos (ha.trans h)]
    exact Int.floor_le_floor h
  · rw [if_neg ha]
    by_cases hb : 0 ≤ b
    · rw [if_pos hb]
      have h1 : ⌈a⌉ ≤ 0 := Int.ceil_le.mpr (by exact_mod_cast (le_of_not_le ha))
      have h2 : (0 : ℤ) ≤ ⌊b⌋ := Int.le_floor.mpr (by exact_mod_cast hb)
      omega
    · rw [if_neg hb]
      exact Int.ceil_le_ceil h

/-- C4 (amended): `GetLatency` is a pure function of (settings, sampleRate) —
in particular it reads no instance state — and it is monotone, but not
strictly monotone, in the lookahead duration: for a nonnegative sample rate
and two settings identical except for a larger lookahead, the returned integer
sample count is greater than or equal (the conversion of
lookahead × rate / 1000 to an integer sample count truncates, so two distinct
lookaheads can produce the same count). -/
theorem getLatency_deterministic_mono (inst₁ inst₂ : CompressorInstance)
    (s₁ s₂ : EffectSettings) (d₁ d₂ : DynamicRangeProcessorSettings) (rate : ℚ)
    (hrate : 0 ≤ rate)
    (h₁ : GetDynamicRangeProcessorSettings s₁ = some d₁)
    (h₂ : GetDynamicRangeProcessorSettings s₂ = some d₂)
    (_hin : d₁.inCompressionThreshDb = d₂.inCompressionThreshDb)
    (_hout : d₁.outCompressionThreshDb = d₂.outCompressionThreshDb)
    (hla : d₁.lookaheadMs ≤ d₂.lookaheadMs) :
    inst₁.GetLatency s₁ rate = inst₂.GetLatency s₁ rate ∧
    inst₁.GetLatency s₁ rate = some (cppTruncToInt (d₁.lookaheadMs * rate / 1000)) ∧
    inst₂.GetLatency s₂ rate = some (cppTruncToInt (d₂.lookaheadMs * rate / 1000)) ∧
    cppTruncToInt (d₁.lookaheadMs * rate / 1000) ≤
      cppTruncToInt (d₂.lookaheadMs * rate / 1000) := by
  refine ⟨rfl, ?_, ?_, ?_⟩
  · rw [CompressorInstance.GetLatency, h₁]
    rfl
  · rw [CompressorInstance.GetLatency, h₂]
    rfl
  · refine cppTruncToInt_mono _ _ ?_
    have hmul : d₁.lookaheadMs * rate ≤ d₂.lookaheadMs * rate :=
      mul_le_mul_of_nonneg_right hla hrate
    exact (div_le_div_iff_of_pos_right (by norm_num)).mpr hmul

/-- Witness for C4's amended theorem at concrete settings and rate. -/
theorem getLatency_deterministic_mono_witness :
    sampleInstance.GetLatency latencyCexA 1000 =
      sampleInstancePB.GetLatency latencyCexA 1000 ∧
    sampleInstance.GetLatency latencyCexA 1000 =
      some (cppTruncToInt (latencyCexDrpA.lookaheadMs * 1000 / 1000)) ∧
    sampleInstancePB.GetLatency latencyCexB 1000 =
      some (cppTruncToInt (latencyCexDrpB.lookaheadMs * 1000 / 1000)) ∧
    cppTruncToInt (latencyCexDrpA.lookaheadMs * 1000 / 1000) ≤
      cppTruncToInt (latencyCexDrpB.lookaheadMs * 1000 / 1000) :=
  getLatency_deterministic_mono sampleInstance sampleInstancePB latencyCexA
    latencyCexB latencyCexDrpA latencyCexDrpB 1000 (by norm_num) rfl rfl rfl rfl
    (by norm_num [latencyCexDrpA, latencyCexDrpB])

/-- Truncation toward zero sends the interval [0, 1) to 0. -/
theorem cppTruncToInt_eq_zero (q : ℚ) (h0 : 0 ≤ q) (h1 : q < 1) :
    cppTruncToInt q = 0 := by
  rw [cppTruncToInt, if_pos h0]
  exact Int.floor_eq_zero_iff.mpr (Set.mem_Ico.mpr ⟨h0, h1⟩)

/-- C4 counterexample: two settings that agree except that the second has the
strictly larger lookahead (0.1 ms vs 0.2 ms) yield the same sample count 0 at
sample rate 1000, refuting strict monotonicity of `GetLatency` in the
lookahead duration. -/
theorem getLatency_strict_mono_cex :
    latencyCexDrpA.inCompressionThreshDb = latencyCexDrpB.inCompressionThreshDb ∧
    latencyCexDrpA.outCompressionThreshDb = latencyCexDrpB.outCompressionThreshDb ∧
    latencyCexDrpA.lookaheadMs < latencyCexDrpB.lookaheadMs ∧
    sampleInstance.GetLatency latencyCexA 1000 = some 0 ∧
    sampleInstance.GetLatency latencyCexB 1000 = some 0 := by
  refine ⟨rfl, rfl, by norm_num [latencyCexDrpA, latencyCexDrpB], ?_, ?_⟩
  · have hA : sampleInstance.GetLatency latencyCexA 1000 =
        some (cppTruncToInt ((1 / 10 : ℚ) * 1000 / 1000)) := rfl
    rw [hA, cppTruncToInt_eq_zero ((1 / 10 : ℚ) * 1000 / 1000) (by norm_num)
      (by norm_num)]
  · have hB : sampleInstance.GetLatency latencyCexB 1000 =
        some (cppTruncToInt ((1 / 5 : ℚ) * 1000 / 1000)) := rfl
    rw [hB, cppTruncToInt_eq_zero ((1 / 5 : ℚ) * 1000 / 1000) (by norm_num)
      (by norm_num)]

/-- C5: `GetLatency` returns the lookahead duration (ms) times the sample rate
divided by 1000, expressed as an integer sample count, computed from the
settings snapshot passed on this very call — the result is the same whatever
instance state the method is invoked on, so no cached value enters it. -/
theorem getLatency_formula (inst inst₂ : CompressorInstance)
    (settings : EffectSettings) (s : DynamicRangeProcessorSettings)
    (sampleRate : ℚ)
    (hset : GetDynamicRangeProcessorSettings settings = some s) :
    inst.GetLatency settings sampleRate =
      some (cppTruncToInt (s.lookaheadMs * sampleRate / 1000)) ∧
    inst.GetLatency settings sampleRate = inst₂.GetLatency settings sampleRate := by
  constructor
  · rw [CompressorInstance.GetLatency, hset]
    rfl
  · rfl

/-- Witness for C5 at a concrete settings snapshot and sample rate. -/
theorem getLatency_formula_witness :
    sampleInstance.GetLatency sampleSettings 44100 =
      some (cppTruncToInt (sampleDrp.lookaheadMs * 44100 / 1000)) ∧
    sampleInstance.GetLatency sampleSettings 44100 =
      sampleInstancePB.GetLatency sampleSettings 44100 :=
  getLatency_formula sampleInstance sampleInstancePB sampleSettings sampleDrp
    44100 rfl

/-- C9: a snapshot holding either recognized variant yields that variant's
dynamic-range-processor settings and never reaches the failure branch; the
failure branch (`none`, the fatal dereference of a failed cast) is reached
exactly on a snapshot holding neither variant. -/
theorem settings_variant_contract :
    (∀ c : CompressorSettings,
      GetDynamicRangeProcessorSettings (EffectSettings.compressor c) =
        some c.toDynamicRangeProcessorSettings) ∧
    (∀ l : LimiterSettings,
      GetDynamicRangeProcessorSettings (EffectSettings.limiter l) =
        some l.toDynamicRangeProcessorSettings) ∧
    (∀ settings : EffectSettings,
      GetDynamicRangeProcessorSettings settings = none ↔
        settings = EffectSettings.other) := by
  refine ⟨fun c => rfl, fun l => rfl, fun settings => ?_⟩
  cases settings <;> simp [GetDynamicRangeProcessorSettings,
    EffectSettings.castCompressorSettings, EffectSettings.castLimiterSettings]

/-- Witness for C9 at a concrete compressor snapshot. -/
theorem settings_variant_contract_witness :
    GetDynamicRangeProcessorSettings (EffectSettings.compressor ⟨sampleDrp⟩) =
      some sampleDrp :=
  settings_variant_contract.1 ⟨sampleDrp⟩

/-- C6: for a block pair in which no output sample's magnitude exceeds the
corresponding input sample's magnitude, `GetMaxDbIncrease` returns the
negative-infinity sentinel when no input sample's magnitude reaches the
silence floor `1e-6`, and in every case a value at most 0 dB (so in particular
in the remaining case a value at most 0 dB). -/
theorem getMaxDbIncrease_no_gain_increase (inp outp : List ℚ)
    (_hlen : inp.length = outp.length)
    (hle : ∀ p ∈ inp.zip outp, |p.2| ≤ |p.1|) :
    ((inp.all fun x => decide (|x| < silenceFloor)) = true →
      GetMaxDbIncrease inp outp = DbResult.negInf) ∧
    DbResult.le (GetMaxDbIncrease inp outp) (DbResult.db 0) := by
  constructor
  · intro hall
    refine getMaxDbIncrease_subfloor inp outp ?_
    intro x hx
    simpa using List.all_eq_true.mp hall x hx
  · unfold GetMaxDbIncrease
    split
    · trivial
    · have hr1 : maxRatioLoop (inp.zip outp) 0 ≤ 1 :=
        maxRatioLoop_le_one _ _ zero_le_one hle
      show log2ToDb * fastLog2 (maxRatioLoop (inp.zip outp) 0) ≤ 0
      have hlog : fastLog2 (maxRatioLoop (inp.zip outp) 0) ≤ 0 :=
        fastLog2_nonpos _ hr1
      have hpos : (0 : ℚ) ≤ log2ToDb := by norm_num [log2ToDb]
      calc log2ToDb * fastLog2 (maxRatioLoop (inp.zip outp) 0)
          ≤ log2ToDb * 0 := mul_le_mul_of_nonneg_left hlog hpos
        _ = 0 := mul_zero _

/-- Witness for C6 on a concrete block pair with one qualifying sample. -/
theorem getMaxDbIncrease_no_gain_increase_witness :
    ((([(1 : ℚ) / 2, 0].all fun x => decide (|x| < silenceFloor)) = true →
      GetMaxDbIncrease [(1 : ℚ) / 2, 0] [(1 : ℚ) / 4, 0] = DbResult.negInf) ∧
    DbResult.le (GetMaxDbIncrease [(1 : ℚ) / 2, 0] [(1 : ℚ) / 4, 0])
      (DbResult.db 0)) :=
  getMaxDbIncrease_no_gain_increase [(1 : ℚ) / 2, 0] [(1 : ℚ) / 4, 0]
    (by decide) (by intro p hp; fin_cases hp <;> norm_num [abs_of_nonneg])

/-- C10: `GetMaxDbIncrease` never reads output samples at positions whose
input magnitude is below the `1e-6` floor: a block whose input samples all sit
below the floor reports negative infinity whatever the output block holds, and
two output blocks that agree at every position whose input magnitude reaches
the floor produce the same result. -/
theorem getMaxDbIncrease_subfloor_insensitive (inp out₁ out₂ : List ℚ)
    (h₁ : inp.length = out₁.length) (h₂ : inp.length = out₂.length)
    (hagree : ∀ p ∈ inp.zip (out₁.zip out₂), silenceFloor ≤ |p.1| → p.2.1 = p.2.2) :
    ((inp.all fun x => decide (|x| < silenceFloor)) = true →
      GetMaxDbIncrease inp out₁ = DbResult.negInf) ∧
    GetMaxDbIncrease inp out₁ = GetMaxDbIncrease inp out₂ := by
  constructor
  · intro hall
    refine getMaxDbIncrease_subfloor inp out₁ ?_
    intro x hx
    simpa using List.all_eq_true.mp hall x hx
  · unfold GetMaxDbIncrease
    rw [maxRatioLoop_congr inp out₁ out₂ 0 h₁ h₂ hagree]

/-- Witness for C10: loud outputs under a sub-floor input are invisible. -/
theorem getMaxDbIncrease_subfloor_insensitive_witness :
    ((([(1 : ℚ) / 2000000, 3].all fun x => decide (|x| < silenceFloor)) = true →
      GetMaxDbIncrease [(1 : ℚ) / 2000000, 3] [(7 : ℚ), 5] = DbResult.negInf) ∧
    GetMaxDbIncrease [(1 : ℚ) / 2000000, 3] [(7 : ℚ), 5] =
      GetMaxDbIncrease [(1 : ℚ) / 2000000, 3] [(9 : ℚ), 5]) :=
  getMaxDbIncrease_subfloor_insensitive [(1 : ℚ) / 2000000, 3] [(7 : ℚ), 5]
    [(9 : ℚ), 5] (by decide) (by decide)
    (by intro p hp; fin_cases hp <;> norm_num [silenceFloor, abs_of_nonneg])

/-- C8: `ProcessBlock` always reports exactly its `blockLen` argument as the
number of processed samples, and an in-range `RealtimeProcess` call always
reports exactly its `numSamples` argument — neither path performs partial
processing. -/
theorem process_full_block (inst : CompressorInstance) (settings : EffectSettings)
    (inBlock : Block) (blockLen : ℕ) (res : ℕ × Block × CompressorInstance)
    (inst₂ : CompressorInstance) (g : ℕ) (s₂ : EffectSettings) (i₂ o₂ : Block)
    (n₂ : ℕ) (res₂ : ℕ × Block × CompressorInstance)
    (hpb : inst.ProcessBlock settings inBlock blockLen = some res)
    (hg : g < inst₂.mSlaves.length)
    (hrt : inst₂.RealtimeProcess g s₂ i₂ o₂ n₂ = some res₂) :
    res.1 = blockLen ∧ res₂.1 = n₂ := by
  constructor
  · cases hset : GetDynamicRangeProcessorSettings settings with
    | none =>
      rw [CompressorInstance.ProcessBlock] at hpb
      simp only [InstanceProcess, hset, Option.map_none'] at hpb
      cases hpb
    | some s =>
      rw [CompressorInstance.ProcessBlock] at hpb
      simp only [InstanceProcess, hset, Option.map_some'] at hpb
      obtain rfl : _ = res := Option.some.inj hpb
      rfl
  · cases hset : GetDynamicRangeProcessorSettings s₂ with
    | none =>
      rw [realtimeProcess_badSettings inst₂ g s₂ i₂ o₂ n₂ hg hset] at hrt
      cases hrt
    | some s =>
      rw [realtimeProcess_inRange inst₂ g s₂ i₂ o₂ n₂ hg s hset] at hrt
      obtain rfl : _ = res₂ := Option.some.inj hrt
      rfl

/-- Witness for C8 at concrete offline and realtime calls. -/
theorem process_full_block_witness :
    sampleInstancePBRes.1 = 1 ∧ sampleRtRes.1 = 2 :=
  process_full_block sampleInstance sampleSettings [[1]] 1 sampleInstancePBRes
    sampleInstance 0 sampleSettings [[1, 2]] [[0, 0]] 2 sampleRtRes rfl
    (by decide) rfl

/-- C1: on an in-range `RealtimeProcess` call whose context has a telemetry
sink attached, the emitted packet's `targetCompressionDb` equals
`EvaluateTransferFunction(maxInputSampleDb) - maxInputSampleDb -
(outCompressionThreshDb - inCompressionThreshDb)`, where `maxInputSampleDb`
comes from the core's last-frame statistics — the frame just processed from
this call's input — and the thresholds come from the core's currently applied
settings, which are the settings applied on this call. -/
theorem realtimeProcess_targetCompression (inst inst' : CompressorInstance)
    (g : ℕ) (settings : EffectSettings) (s : DynamicRangeProcessorSettings)
    (inbuf outbuf out : Block) (numSamples r : ℕ) (slave slave' : CompressorSlave)
    (outs : DynamicRangeProcessorOutputs)
    (hs : inst.mSlaves[g]? = some slave)
    (hsink : slave.mpOutputs = some outs)
    (hset : GetDynamicRangeProcessorSettings settings = some s)
    (hcall : inst.RealtimeProcess g settings inbuf outbuf numSamples =
      some (r, out, inst'))
    (hs' : inst'.mSlaves[g]? = some slave') :
    slave'.mpOutputs =
      some { packets := outs.packets ++ [emittedPacket slave slave'.mCompressor] } ∧
    slave'.mCompressor =
      ((slave.mCompressor.ApplySettingsIfNeeded s).Process inbuf numSamples).1 ∧
    slave'.mCompressor.GetSettings = s ∧
    (emittedPacket slave slave'.mCompressor).targetCompressionDb =
      slave'.mCompressor.EvaluateTransferFunction
          (slave'.mCompressor.GetLastFrameStats).maxInputSampleDb -
        (slave'.mCompressor.GetLastFrameStats).maxInputSampleDb -
        ((slave'.mCompressor.GetSettings).outCompressionThreshDb -
          (slave'.mCompressor.GetSettings).inCompressionThreshDb) := by
  have hg : g < inst.mSlaves.length := by
    by_contra hc
    rw [List.getElem?_eq_none (by omega)] at hs
    cases hs
  have hslave : inst.mSlaves.get ⟨g, hg⟩ = slave := by
    rw [List.get_eq_getElem]
    exact Option.some.inj ((List.getElem?_eq_getElem hg).symm.trans hs)
  rw [realtimeProcess_inRange inst g settings inbuf outbuf numSamples hg s hset]
    at hcall
  simp only [Option.some.injEq, Prod.mk.injEq] at hcall
  obtain ⟨hr, hout2, hinst⟩ := hcall
  have hms : inst'.mSlaves = inst.mSlaves.set g
      ((inst.mSlaves.get ⟨g, hg⟩).afterProcess
        (((inst.mSlaves.get ⟨g, hg⟩).mCompressor.ApplySettingsIfNeeded s).Process
          inbuf numSamples).1 numSamples) := by
    rw [← hinst]
  have hs'' : (inst.mSlaves.set g
      ((inst.mSlaves.get ⟨g, hg⟩).afterProcess
        (((inst.mSlaves.get ⟨g, hg⟩).mCompressor.ApplySettingsIfNeeded s).Process
          inbuf numSamples).1 numSamples))[g]? = some slave' := by
    rw [← hms]
    exact hs'
  rw [List.getElem?_set_eq_of_lt _ hg] at hs''
  have hslave' := Option.some.inj hs''
  subst hslave'
  subst hslave
  refine ⟨?_, rfl, ?_, rfl⟩
  · simp only [CompressorSlave.afterProcess, hsink, Option.map_some']
  · show (((inst.mSlaves.get ⟨g, hg⟩).mCompressor.ApplySettingsIfNeeded s).Process
      inbuf numSamples).1.appliedSettings = s
    rw [process_appliedSettings, applySettingsIfNeeded_appliedSettings]

/-- Witness for C1 at a concrete in-range call with an attached sink. -/
theorem realtimeProcess_targetCompression_witness :
    sampleSlaveAfter.mpOutputs =
      some { packets := sampleOuts.packets ++
        [emittedPacket sampleSlave sampleSlaveAfter.mCompressor] } ∧
    sampleSlaveAfter.mCompressor =
      ((sampleSlave.mCompressor.ApplySettingsIfNeeded sampleDrp).Process
        [[1, 2]] 2).1 ∧
    sampleSlaveAfter.mCompressor.GetSettings = sampleDrp ∧
    (emittedPacket sampleSlave sampleSlaveAfter.mCompressor).targetCompressionDb =
      sampleSlaveAfter.mCompressor.EvaluateTransferFunction
          (sampleSlaveAfter.mCompressor.GetLastFrameStats).maxInputSampleDb -
        (sampleSlaveAfter.mCompressor.GetLastFrameStats).maxInputSampleDb -
        ((sampleSlaveAfter.mCompressor.GetSettings).outCompressionThreshDb -
          (sampleSlaveAfter.mCompressor.GetSettings).inCompressionThreshDb) :=
  realtimeProcess_targetCompression sampleInstance sampleInstanceAfter 0
    sampleSettings sampleDrp [[1, 2]] [[0, 0]] [[1, 2]] 2 2 sampleSlave
    sampleSlaveAfter sampleOuts rfl rfl rfl rfl rfl

/-- C7: an in-range `RealtimeProcess` call appends exactly one packet to the
context's sink when and only when a sink is attached (the sink is otherwise
left absent), the packet's `indexOfFirstSample` is the context's sample
counter value from before the call, the counter is advanced by the processed
amount only after the packet is built, only the addressed context changes, and
the non-realtime `ProcessBlock` path never touches any context (hence never
emits a packet). -/
theorem realtimeProcess_packet_emission (inst inst' : CompressorInstance)
    (g : ℕ) (settings : EffectSettings) (inbuf outbuf out : Block)
    (numSamples r : ℕ) (slave slave' : CompressorSlave)
    (inst₂ : CompressorInstance) (s₂ : EffectSettings) (blk : Block)
    (blockLen : ℕ) (res : ℕ × Block × CompressorInstance)
    (hs : inst.mSlaves[g]? = some slave)
    (hcall : inst.RealtimeProcess g settings inbuf outbuf numSamples =
      some (r, out, inst'))
    (hs' : inst'.mSlaves[g]? = some slave')
    (hpb : inst₂.ProcessBlock s₂ blk blockLen = some res) :
    slave'.mpOutputs = slave.mpOutputs.map (fun outs =>
      { packets := outs.packets ++
        [emittedPacket slave slave'.mCompressor] }) ∧
    (emittedPacket slave slave'.mCompressor).indexOfFirstSample =
      slave.mSampleCounter ∧
    slave'.mSampleCounter = slave.mSampleCounter + r ∧
    inst'.mSlaves = inst.mSlaves.set g slave' ∧
    res.2.2.mSlaves = inst₂.mSlaves := by
  have hg : g < inst.mSlaves.length := by
    by_contra hc
    rw [List.getElem?_eq_none (by omega)] at hs
    cases hs
  have hslave : inst.mSlaves.get ⟨g, hg⟩ = slave := by
    rw [List.get_eq_getElem]
    exact Option.some.inj ((List.getElem?_eq_getElem hg).symm.trans hs)
  have hpbs : res.2.2.mSlaves = inst₂.mSlaves := by
    cases hset₂ : GetDynamicRangeProcessorSettings s₂ with
    | none =>
      rw [CompressorInstance.ProcessBlock] at hpb
      simp only [InstanceProcess, hset₂, Option.map_none'] at hpb
      cases hpb
    | some d₂ =>
      rw [CompressorInstance.ProcessBlock] at hpb
      simp only [InstanceProcess, hset₂, Option.map_some'] at hpb
      obtain rfl : _ = res := Option.some.inj hpb
      rfl
  cases hset : GetDynamicRangeProcessorSettings settings with
  | none =>
    rw [realtimeProcess_badSettings inst g settings inbuf outbuf numSamples hg hset]
      at hcall
    cases hcall
  | some s =>
    rw [realtimeProcess_inRange inst g settings inbuf outbuf numSamples hg s hset]
      at hcall
    simp only [Option.some.injEq, Prod.mk.injEq] at hcall
    obtain ⟨hr, hout2, hinst⟩ := hcall
    have hms : inst'.mSlaves = inst.mSlaves.set g
        ((inst.mSlaves.get ⟨g, hg⟩).afterProcess
          (((inst.mSlaves.get ⟨g, hg⟩).mCompressor.ApplySettingsIfNeeded s).Process
            inbuf numSamples).1 numSamples) := by
      rw [← hinst]
    have hs'' : (inst.mSlaves.set g
        ((inst.mSlaves.get ⟨g, hg⟩).afterProcess
          (((inst.mSlaves.get ⟨g, hg⟩).mCompressor.ApplySettingsIfNeeded s).Process
            inbuf numSamples).1 numSamples))[g]? = some slave' := by
      rw [← hms]
      exact hs'
    rw [List.getElem?_set_eq_of_lt _ hg] at hs''
    have hslave' := Option.some.inj hs''
    subst hslave'
    subst hslave
    subst hr
    exact ⟨rfl, rfl, rfl, hms, hpbs⟩

/-- Witness for C7 at a concrete in-range call on the sink-less context. -/
theorem realtimeProcess_packet_emission_witness :
    sampleSlaveNoSinkAfter.mpOutputs = sampleSlaveNoSink.mpOutputs.map (fun outs =>
      { packets := outs.packets ++
        [emittedPacket sampleSlaveNoSink sampleSlaveNoSinkAfter.mCompressor] }) ∧
    (emittedPacket sampleSlaveNoSink
        sampleSlaveNoSinkAfter.mCompressor).indexOfFirstSample =
      sampleSlaveNoSink.mSampleCounter ∧
    sampleSlaveNoSinkAfter.mSampleCounter = sampleSlaveNoSink.mSampleCounter + 3 ∧
    sampleInstanceAfter2.mSlaves = sampleInstance.mSlaves.set 1 sampleSlaveNoSinkAfter ∧
    sampleInstancePBRes.2.2.mSlaves = sampleInstance.mSlaves :=
  realtimeProcess_packet_emission sampleInstance sampleInstanceAfter2 1
    sampleSettings [[1, 2]] [[0, 0]] [[1, 2]] 3 3 sampleSlaveNoSink
    sampleSlaveNoSinkAfter sampleInstance sampleSettings [[1]] 1
    sampleInstancePBRes rfl rfl rfl rfl

/-- C2: starting from the state built by `RealtimeInitialize` followed by any
sequence of `RealtimeAddProcessor` calls, after any sequence of
`RealtimeProcess`/`RealtimePassThrough` calls the sample counter of an
existing context `g` equals the sum of the `numSamples` arguments of the calls
addressed to `g` (calls on other — including out-of-range — groups contribute
nothing; the quantification over all sequences covers in particular the
single-call advance by exactly `numSamples`); along every prefix of the
sequence the counter carries the prefix sum, so it never decreases. -/
theorem realtimeSampleCounter_sum (proto : CompressorInstance) (rate : ℚ)
    (adds : List AddArgs) (inst inst' inst₁ : CompressorInstance)
    (evs pre suf : List RtEvent) (g : ℕ)
    (hinit : (proto.RealtimeInit rate).addAll adds = some inst)
    (hg : g < inst.mSlaves.length)
    (hrun : inst.runEvents evs = some inst')
    (hsplit : evs = pre ++ suf)
    (hpre : inst.runEvents pre = some inst₁) :
    inst'.counterOf g = eventSumOn g evs ∧
    inst₁.counterOf g = eventSumOn g pre ∧
    inst₁.counterOf g ≤ inst'.counterOf g := by
  have hzero : inst.counterOf g = 0 := by
    have h0 := addAll_counterOf adds (proto.RealtimeInit rate) inst hinit g
    rw [h0, if_neg]
    intro hc
    simp [CompressorInstance.RealtimeInit] at hc
  obtain ⟨-, hc⟩ := runEvents_counterOf evs inst inst' hrun
  obtain ⟨-, hcp⟩ := runEvents_counterOf pre inst inst₁ hpre
  have h1 : inst'.counterOf g = eventSumOn g evs := by
    rw [hc g hg, hzero, Nat.zero_add]
  have h2 : inst₁.counterOf g = eventSumOn g pre := by
    rw [hcp g hg, hzero, Nat.zero_add]
  refine ⟨h1, h2, ?_⟩
  rw [h1, h2, hsplit, eventSumOn_append]
  omega

/-- Witness for C2: one add, then a 512-sample process call and a 256-sample
pass-through on group 0; the counter reads 512 after the prefix and 768 at the
end. -/
theorem realtimeSampleCounter_sum_witness :
    sampleRtInstEnd.counterOf 0 = eventSumOn 0 sampleEvs ∧
    sampleRtInstMid.counterOf 0 = eventSumOn 0 samplePre ∧
    sampleRtInstMid.counterOf 0 ≤ sampleRtInstEnd.counterOf 0 :=
  realtimeSampleCounter_sum sampleInstance 48000 sampleAdds sampleRtInst
    sampleRtInstEnd sampleRtInstMid sampleEvs samplePre sampleSuf 0 rfl
    (by decide) rfl rfl rfl
